import Mathlib

/-!
Verification of the PaperGraph link-discovery and graph-export engine.

The repository ships the UI (React/TypeScript) together with documentation of
a Python CLI engine (paper_db.py and tools/) whose source is not included.
Definitions below are a shallow embedding: UI behaviour is translated from the
TypeScript sources; the engine components that only exist as documentation are
modelled from the specification text and are marked as such in their doc
comments.
-/

namespace PaperGraph

/-- Whitespace test used by the attribute normalizer (space, tab, newline,
carriage return). -/
def isWsChar (c : Char) : Bool :=
  c == ' ' || c == '\t' || c == '\n' || c == '\r'

/-- Modelled from the spec: trimming of a token (source engine is missing from
the repository snapshot).  Leading and trailing whitespace characters are
removed. -/
def trimL (l : List Char) : List Char :=
  ((l.dropWhile isWsChar).reverse.dropWhile isWsChar).reverse

theorem head_dropWhile_not (p : Char → Bool) :
    ∀ (l : List Char) (c : Char), (List.dropWhile p l).head? = some c → p c = false := by
  intro l
  induction l with
  | nil => intro c h; simp [List.dropWhile] at h
  | cons d rest ih =>
    intro c h
    by_cases hp : p d = true
    · simp [List.dropWhile, hp] at h
      exact ih c h
    · simp [List.dropWhile, hp] at h
      rw [← h]
      simpa using hp

theorem getLast_dropWhile (p : Char → Bool) :
    ∀ l : List Char, List.dropWhile p l ≠ [] →
      (List.dropWhile p l).getLast? = l.getLast? := by
  intro l
  induction l with
  | nil => intro h; simp [List.dropWhile] at h
  | cons d rest ih =>
    intro h
    by_cases hp : p d = true
    · have hd : List.dropWhile p (d :: rest) = List.dropWhile p rest := by
        simp [List.dropWhile, hp]
      rw [hd] at h ⊢
      have hrest : rest ≠ [] := by
        intro hr
        rw [hr] at h
        simp [List.dropWhile] at h
      cases rest with
      | nil => exact absurd rfl hrest
      | cons x xs =>
        rw [ih h]
        simp [List.getLast?_cons_cons]
    · simp [List.dropWhile, hp]

theorem dropWhile_eq_self_of_head (p : Char → Bool) (l : List Char)
    (h : ∀ c, l.head? = some c → p c = false) : List.dropWhile p l = l := by
  cases l with
  | nil => rfl
  | cons d rest =>
    have := h d rfl
    simp [List.dropWhile, this]

theorem trimL_head (l : List Char) (c : Char)
    (h : (trimL l).head? = some c) : isWsChar c = false := by
  unfold trimL at h
  rw [List.head?_reverse] at h
  have hne : List.dropWhile isWsChar (l.dropWhile isWsChar).reverse ≠ [] := by
    intro he
    rw [he] at h
    simp at h
  rw [getLast_dropWhile isWsChar _ hne] at h
  rw [List.getLast?_reverse] at h
  exact head_dropWhile_not isWsChar _ c h

theorem trimL_last (l : List Char) (c : Char)
    (h : (trimL l).getLast? = some c) : isWsChar c = false := by
  unfold trimL at h
  rw [List.getLast?_reverse] at h
  exact head_dropWhile_not isWsChar _ c h

theorem trimL_idem (l : List Char) : trimL (trimL l) = trimL l := by
  have h1 : List.dropWhile isWsChar (trimL l) = trimL l :=
    dropWhile_eq_self_of_head _ _ (fun c hc => trimL_head l c hc)
  have h2 : List.dropWhile isWsChar (trimL l).reverse = (trimL l).reverse := by
    apply dropWhile_eq_self_of_head
    intro c hc
    rw [List.head?_reverse] at hc
    exact trimL_last l c hc
  show ((((trimL l).dropWhile isWsChar).reverse.dropWhile isWsChar)).reverse = trimL l
  rw [h1, h2, List.reverse_reverse]

/-- Modelled from the spec: comma-splitting of a delimited attribute string
(the default delimiter of the Attribute Normalizer). -/
def splitComma : List Char → List (List Char)
  | [] => [[]]
  | ',' :: rest => [] :: splitComma rest
  | c :: rest =>
    match splitComma rest with
    | [] => [[c]]
    | t :: ts => (c :: t) :: ts

/-- Modelled from the spec: splitting of an authors string on the literal
BibTeX separator, consuming its leftmost occurrences first. -/
def splitAnd : List Char → List (List Char)
  | ' ' :: 'a' :: 'n' :: 'd' :: ' ' :: rest => [] :: splitAnd rest
  | c :: rest =>
    match splitAnd rest with
    | [] => [[c]]
    | t :: ts => (c :: t) :: ts
  | [] => [[]]

/-- Occurrence test for the literal BibTeX separator, mirroring the
JavaScript includes check used before choosing the split delimiter. -/
def hasAnd : List Char → Bool
  | ' ' :: 'a' :: 'n' :: 'd' :: ' ' :: _ => true
  | _ :: rest => hasAnd rest
  | [] => false

/-- Modelled from the spec: the cleanup stage of the Attribute Normalizer —
tokens are trimmed, whitespace-only tokens are dropped, duplicates
collapsed. -/
def cleanTokens (parts : List (List Char)) : List (List Char) :=
  ((parts.map trimL).filter (fun t => !t.isEmpty)).dedup

/-- Modelled from the spec: the Attribute Normalizer for comma-delimited
fields (tags, keywords); null yields the empty set. -/
def normalizeAttr (s : Option String) : List (List Char) :=
  match s with
  | none => []
  | some s => cleanTokens (splitComma s.data)

/-- Modelled from the spec: the Attribute Normalizer for the authors field —
when the literal BibTeX separator occurs in the input it splits on it,
otherwise it falls back to comma-splitting; null yields the empty set. -/
def normalizeAuthors (s : Option String) : List (List Char) :=
  match s with
  | none => []
  | some s =>
    cleanTokens (if hasAnd s.data then splitAnd s.data else splitComma s.data)

theorem mem_cleanTokens (parts : List (List Char)) (t : List Char)
    (h : t ∈ cleanTokens parts) : t ≠ [] ∧ trimL t = t := by
  unfold cleanTokens at h
  rw [List.mem_dedup] at h
  rw [List.mem_filter] at h
  obtain ⟨hmem, hne⟩ := h
  rw [List.mem_map] at hmem
  obtain ⟨orig, _, rfl⟩ := hmem
  constructor
  · intro he
    rw [he] at hne
    simp at hne
  · exact trimL_idem orig

/-- A paper record as consumed by the engine (descriptive attributes only;
store-assigned numeric id, raw delimited attribute strings, optional year). -/
structure Paper where
  id : Nat
  title : String
  authors : Option String
  tags : Option String
  keywords : Option String
  year : Option Int
deriving DecidableEq

/-- Normalized tag set of a record. -/
def Paper.tagSet (p : Paper) : List (List Char) := normalizeAttr p.tags

/-- Normalized keyword set of a record. -/
def Paper.keywordSet (p : Paper) : List (List Char) := normalizeAttr p.keywords

/-- Normalized author-name set of a record. -/
def Paper.authorSet (p : Paper) : List (List Char) := normalizeAuthors p.authors

/-- A stored link row: directed relationship between two paper ids. -/
structure Link where
  source : Nat
  target : Nat
  type : String
  note : String
deriving DecidableEq

/-- Non-empty intersection test on normalized token sets. -/
def overlaps (a b : List (List Char)) : Bool :=
  a.any (fun x => b.contains x)

/-- Modelled from the spec: the Edge Label Resolver (the engine source is not
in the repository snapshot).  A stored type of related is refined by attribute
overlap in the priority order tags, keywords, authors; any other stored type,
and a related link with no overlap, passes through verbatim. -/
def resolveLabel (a b : Paper) (storedType : String) : String :=
  if storedType = "related" then
    if overlaps a.tagSet b.tagSet then "related-tag"
    else if overlaps a.keywordSet b.keywordSet then "related-keyword"
    else if overlaps a.authorSet b.authorSet then "related-author"
    else storedType
  else storedType

/-- The four auto-discovery dimensions. -/
inductive Strategy where
  | tags
  | keywords
  | authors
  | year
deriving DecidableEq

/-- Modelled from the spec: the per-dimension match predicate of the
Auto-Discovery Strategies.  Year matches only when both years are present and
equal. -/
def strategyMatch : Strategy → Paper → Paper → Bool
  | .tags, a, b => overlaps a.tagSet b.tagSet
  | .keywords, a, b => overlaps a.keywordSet b.keywordSet
  | .authors, a, b => overlaps a.authorSet b.authorSet
  | .year, a, b =>
    match a.year, b.year with
    | some x, some y => x == y
    | _, _ => false

/-- Modelled from the spec: candidate generation for one strategy — all
unordered id pairs of distinct matching records, canonically oriented by
increasing id (a candidate pair is a value: an unordered id pair, and no
strategy emits self-pairs). -/
def strategyPairs (s : Strategy) (records : List Paper) : List (Nat × Nat) :=
  records.flatMap (fun a =>
    records.filterMap (fun b =>
      if a.id < b.id ∧ strategyMatch s a b then some (a.id, b.id) else none))

/-- Modelled from the spec: the union of the selected strategies' candidate
sets, with duplicates across strategies dropped. -/
def candidatePairs (strategies : List Strategy) (records : List Paper) :
    List (Nat × Nat) :=
  (strategies.flatMap (fun s => strategyPairs s records)).dedup

/-- A link already exists between two ids, in either direction. -/
def linkExistsBetween (links : List Link) (a b : Nat) : Bool :=
  links.any (fun l =>
    (l.source == a && l.target == b) || (l.source == b && l.target == a))

/-- Modelled from the spec: step 3 and 4 of the Discovery Orchestrator —
candidate pairs that already exist as a link in either direction are dropped,
the survivors become new link rows with the generic related type. -/
def newLinksFor (strategies : List Strategy) (records : List Paper)
    (links : List Link) : List Link :=
  ((candidatePairs strategies records).filter
      (fun c => !linkExistsBetween links c.1 c.2)).map
    (fun c => { source := c.1, target := c.2, type := "related", note := "" })

/-- A store write operation of the orchestrator's batch: bulk purge of the
in-scope links, or insertion of one new link row. -/
inductive BatchOp where
  | purge
  | ins (l : Link)
deriving DecidableEq

/-- Effect of one batch operation on the in-scope link table. -/
def applyOp (links : List Link) : BatchOp → List Link
  | .purge => []
  | .ins l => links ++ [l]

/-- Modelled from the spec: all-or-nothing commit of the orchestrator's batch;
a store write may fail at any operation index (the failure oracle), in which
case no partial state is exposed — the transaction aborts with an error. -/
def commitGo (failAt : Nat → Bool) : Nat → List Link → List BatchOp →
    Except String (List Link)
  | _, links, [] => .ok links
  | i, links, op :: rest =>
    if failAt i then .error "store write failure"
    else commitGo failAt (i + 1) (applyOp links op) rest

/-- Commit a batch against the link table starting at operation index 0. -/
def commitBatch (links : List Link) (ops : List BatchOp)
    (failAt : Nat → Bool) : Except String (List Link) :=
  commitGo failAt 0 links ops

/-- Modelled from the spec: the batch the Discovery Orchestrator builds —
an optional purge followed by the insertion of every surviving candidate —
together with the created/deleted counts it reports. -/
def discoverOps (records : List Paper) (links : List Link)
    (strategies : List Strategy) (deleteExisting : Bool) :
    List BatchOp × Nat × Nat :=
  let base := if deleteExisting then [] else links
  let created := newLinksFor strategies records base
  ((if deleteExisting then [BatchOp.purge] else []) ++ created.map BatchOp.ins,
   created.length,
   if deleteExisting then links.length else 0)

/-- Modelled from the spec: the Discovery Orchestrator.  An empty strategy
set is rejected before any store access; otherwise the delete/insert batch is
committed atomically and on failure the store is rolled back to its prior
state with the error surfaced.  Returns the resulting link table and either
the created/deleted counts or the error. -/
def discoverLinksTx (records : List Paper) (links : List Link)
    (strategies : List Strategy) (deleteExisting : Bool)
    (failAt : Nat → Bool) : List Link × Except String (Nat × Nat) :=
  if strategies.isEmpty then (links, .error "No strategies selected")
  else
    match commitBatch links
        (discoverOps records links strategies deleteExisting).1 failAt with
    | .ok links2 =>
      (links2, .ok (discoverOps records links strategies deleteExisting).2)
    | .error e => (links, .error e)

/-- The never-failing store oracle. -/
def noFail : Nat → Bool := fun _ => false

/-- The discovery operation in the absence of store failures. -/
def discoverLinks (records : List Paper) (links : List Link)
    (strategies : List Strategy) (deleteExisting : Bool) :
    List Link × Except String (Nat × Nat) :=
  discoverLinksTx records links strategies deleteExisting noFail

theorem commitGo_ok (failAt : Nat → Bool) :
    ∀ (ops : List BatchOp) (i : Nat) (links links2 : List Link),
      commitGo failAt i links ops = .ok links2 →
      links2 = ops.foldl applyOp links := by
  intro ops
  induction ops with
  | nil =>
    intro i links links2 h
    simp [commitGo] at h
    simp [h]
  | cons op rest ih =>
    intro i links links2 h
    by_cases hf : failAt i = true
    · simp [commitGo, hf] at h
    · simp [commitGo, hf] at h
      exact ih (i + 1) (applyOp links op) links2 h

theorem commitGo_noFail :
    ∀ (ops : List BatchOp) (i : Nat) (links : List Link),
      commitGo noFail i links ops = .ok (ops.foldl applyOp links) := by
  intro ops
  induction ops with
  | nil => intro i links; simp [commitGo]
  | cons op rest ih =>
    intro i links
    simp [commitGo, noFail]
    exact ih (i + 1) (applyOp links op)

theorem foldl_applyOp_ins :
    ∀ (created : List Link) (base : List Link),
      (created.map BatchOp.ins).foldl applyOp base = base ++ created := by
  intro created
  induction created with
  | nil => intro base; simp
  | cons l rest ih =>
    intro base
    simp only [List.map_cons, List.foldl_cons, applyOp]
    rw [ih (base ++ [l])]
    simp

theorem discoverLinks_run (records : List Paper) (links : List Link)
    (strategies : List Strategy) (deleteExisting : Bool)
    (h : strategies ≠ []) :
    discoverLinks records links strategies deleteExisting =
      ((if deleteExisting then [] else links) ++
         newLinksFor strategies records (if deleteExisting then [] else links),
       .ok ((newLinksFor strategies records
               (if deleteExisting then [] else links)).length,
            if deleteExisting then links.length else 0)) := by
  unfold discoverLinks discoverLinksTx
  have hne : strategies.isEmpty = false := by
    cases strategies with
    | nil => exact absurd rfl h
    | cons a b => rfl
  rw [hne]
  unfold commitBatch discoverOps
  cases deleteExisting with
  | false =>
    simp only [Bool.false_eq_true, if_false, List.nil_append]
    rw [commitGo_noFail, foldl_applyOp_ins]
  | true =>
    simp only [if_true, List.singleton_append]
    rw [commitGo_noFail]
    simp only [List.foldl_cons, applyOp]
    rw [foldl_applyOp_ins]
    simp

theorem linkExistsBetween_append (xs ys : List Link) (a b : Nat) :
    linkExistsBetween (xs ++ ys) a b =
      (linkExistsBetween xs a b || linkExistsBetween ys a b) := by
  unfold linkExistsBetween
  exact List.any_append

theorem linkExistsBetween_of_created (strategies : List Strategy)
    (records : List Paper) (links : List Link) (c : Nat × Nat)
    (hc : c ∈ candidatePairs strategies records)
    (hex : linkExistsBetween links c.1 c.2 = false) :
    linkExistsBetween (newLinksFor strategies records links) c.1 c.2 = true := by
  unfold linkExistsBetween
  rw [List.any_eq_true]
  refine ⟨{ source := c.1, target := c.2, type := "related", note := "" }, ?_, ?_⟩
  · unfold newLinksFor
    apply List.mem_map_of_mem
    rw [List.mem_filter]
    exact ⟨hc, by rw [hex]; rfl⟩
  · simp

theorem candidates_all_exist_after (strategies : List Strategy)
    (records : List Paper) (links : List Link) (c : Nat × Nat)
    (hc : c ∈ candidatePairs strategies records) :
    linkExistsBetween (links ++ newLinksFor strategies records links) c.1 c.2
      = true := by
  rw [linkExistsBetween_append]
  by_cases hex : linkExistsBetween links c.1 c.2 = true
  · rw [hex]; rfl
  · have hex2 : linkExistsBetween links c.1 c.2 = false :=
      Bool.eq_false_iff.mpr hex
    rw [linkExistsBetween_of_created strategies records links c hc hex2]
    simp

theorem newLinksFor_second_run (strategies : List Strategy)
    (records : List Paper) (links : List Link) :
    newLinksFor strategies records
      (links ++ newLinksFor strategies records links) = [] := by
  have hall := candidates_all_exist_after strategies records links
  unfold newLinksFor
  rw [List.map_eq_nil_iff, List.filter_eq_nil_iff]
  intro c hc
  have hx := hall c hc
  unfold newLinksFor at hx
  rw [hx]
  simp

/-- C2: with identical inputs and no purge, the first discovery run commits
some set of new links and a second run over the resulting store creates
exactly zero links and leaves the store unchanged, because every candidate
pair already exists as a link. -/
theorem discover_links_idempotent (records : List Paper) (links : List Link)
    (strategies : List Strategy) (h : strategies ≠ []) :
    ∃ links1 n,
      discoverLinks records links strategies false = (links1, .ok (n, 0)) ∧
      discoverLinks records links1 strategies false = (links1, .ok (0, 0)) := by
  refine ⟨links ++ newLinksFor strategies records links,
         (newLinksFor strategies records links).length, ?_, ?_⟩
  · have := discoverLinks_run records links strategies false h
    simpa using this
  · have := discoverLinks_run records
      (links ++ newLinksFor strategies records links) strategies false h
    simp only [Bool.false_eq_true, if_false] at this
    rw [newLinksFor_second_run] at this
    simpa using this

/-- Demo record with tag nlp. -/
def demoA : Paper :=
  { id := 1, title := "A", authors := none, tags := some "nlp",
    keywords := none, year := none }

/-- Demo record with tags nlp and vision. -/
def demoB : Paper :=
  { id := 2, title := "B", authors := none, tags := some "nlp, vision",
    keywords := none, year := none }

/-- Demo record with tag robotics. -/
def demoC : Paper :=
  { id := 3, title := "C", authors := none, tags := some "robotics",
    keywords := none, year := none }

/-- Demo record set from the spec's tag-based discovery scenario. -/
def demoRecords : List Paper := [demoA, demoB, demoC]

/-- Concrete instance of idempotence: the spec's three-record tag scenario,
tag strategy, empty initial store. -/
theorem discover_links_idempotent_witness :
    ∃ links1 n,
      discoverLinks demoRecords [] [Strategy.tags] false =
        (links1, .ok (n, 0)) ∧
      discoverLinks demoRecords links1 [Strategy.tags] false =
        (links1, .ok (0, 0)) :=
  discover_links_idempotent demoRecords [] [Strategy.tags] (by simp)

theorem discoverOps_foldl (records : List Paper) (links : List Link)
    (strategies : List Strategy) (deleteExisting : Bool) :
    (discoverOps records links strategies deleteExisting).1.foldl applyOp links
      = (if deleteExisting then [] else links) ++
          newLinksFor strategies records
            (if deleteExisting then [] else links) := by
  unfold discoverOps
  cases deleteExisting with
  | false =>
    simp only [Bool.false_eq_true, if_false, List.nil_append]
    exact foldl_applyOp_ins _ _
  | true =>
    simp only [if_true, List.singleton_append, List.foldl_cons, applyOp]
    rw [foldl_applyOp_ins]

/-- C5: the orchestrator's delete/insert batch is atomic — every run either
applies the whole batch (purge plus all insertions) and reports the counts,
or, on a store write failure at any point, returns the store exactly as it
was with the error surfaced. -/
theorem discovery_batch_atomic (records : List Paper) (links : List Link)
    (strategies : List Strategy) (deleteExisting : Bool)
    (failAt : Nat → Bool) (h : strategies ≠ []) :
    discoverLinksTx records links strategies deleteExisting failAt =
      ((if deleteExisting then [] else links) ++
         newLinksFor strategies records
           (if deleteExisting then [] else links),
       .ok ((newLinksFor strategies records
               (if deleteExisting then [] else links)).length,
            if deleteExisting then links.length else 0)) ∨
    (∃ e, discoverLinksTx records links strategies deleteExisting failAt =
       (links, .error e)) := by
  have hne : strategies.isEmpty = false := by
    cases strategies with
    | nil => exact absurd rfl h
    | cons a b => rfl
  unfold discoverLinksTx
  rw [hne]
  simp only [Bool.false_eq_true, if_false]
  cases hcb : commitBatch links
      (discoverOps records links strategies deleteExisting).1 failAt with
  | error e => right; exact ⟨e, rfl⟩
  | ok links2 =>
    left
    have h2 : links2 =
        (discoverOps records links strategies deleteExisting).1.foldl
          applyOp links :=
      commitGo_ok failAt _ 0 links links2 hcb
    rw [discoverOps_foldl] at h2
    rw [h2]
    simp [discoverOps]

/-- Concrete instance of batch atomicity: a store that fails on the very
first write leaves the link table untouched and surfaces an error. -/
theorem discovery_batch_atomic_witness :
    discoverLinksTx demoRecords [] [Strategy.tags] false (fun _ => true) =
      ([] ++ newLinksFor [Strategy.tags] demoRecords [],
       .ok ((newLinksFor [Strategy.tags] demoRecords []).length, 0)) ∨
    (∃ e, discoverLinksTx demoRecords [] [Strategy.tags] false
        (fun _ => true) = ([], .error e)) := by
  have := discovery_batch_atomic demoRecords [] [Strategy.tags] false
    (fun _ => true) (by simp)
  simpa using this

/-- From AutoDiscoverModal.tsx: the Run button is disabled while loading or
when no strategy checkbox is active. -/
def autoDiscoverRunDisabled (loading : Bool)
    (activeStrategies : List String) : Bool :=
  loading || activeStrategies.length == 0

/-- C6: a discovery request with an empty strategy set is rejected before any
store access — the orchestrator reports an error and the link table is
returned unchanged — and the UI additionally keeps the Run button disabled
when no strategy is selected. -/
theorem discover_links_empty_strategies_rejected :
    (∀ (records : List Paper) (links : List Link) (deleteExisting : Bool)
       (failAt : Nat → Bool),
        discoverLinksTx records links [] deleteExisting failAt =
          (links, .error "No strategies selected")) ∧
    (∀ loading, autoDiscoverRunDisabled loading [] = true) := by
  constructor
  · intro records links deleteExisting failAt
    rfl
  · intro loading
    cases loading <;> rfl

/-- From BuildLinkModal handleSubmit: client-side validation of a manual
link creation — missing endpoints and self-loops are rejected with an error
message; None means the submission proceeds. -/
def buildLinkValidate (sourceId targetId : String) : Option String :=
  if sourceId = "" ∨ targetId = "" then
    some "Please select both source and target nodes."
  else if sourceId = targetId then
    some "Source and target cannot be the same."
  else none

theorem strategyPairs_ne (s : Strategy) (records : List Paper)
    (p : Nat × Nat) (hp : p ∈ strategyPairs s records) : p.1 ≠ p.2 := by
  unfold strategyPairs at hp
  rw [List.mem_flatMap] at hp
  obtain ⟨a, _, hp⟩ := hp
  rw [List.mem_filterMap] at hp
  obtain ⟨b, _, hfb⟩ := hp
  by_cases hcond : a.id < b.id ∧ strategyMatch s a b = true
  · rw [if_pos hcond] at hfb
    cases hfb
    exact Nat.ne_of_lt hcond.1
  · rw [if_neg hcond] at hfb
    exact absurd hfb (by simp)

theorem candidatePairs_ne (strategies : List Strategy) (records : List Paper)
    (p : Nat × Nat) (hp : p ∈ candidatePairs strategies records) :
    p.1 ≠ p.2 := by
  unfold candidatePairs at hp
  rw [List.mem_dedup, List.mem_flatMap] at hp
  obtain ⟨s, _, hp⟩ := hp
  exact strategyPairs_ne s records p hp

theorem newLinksFor_ne (strategies : List Strategy) (records : List Paper)
    (links : List Link) (l : Link)
    (hl : l ∈ newLinksFor strategies records links) : l.source ≠ l.target := by
  unfold newLinksFor at hl
  rw [List.mem_map] at hl
  obtain ⟨c, hc, rfl⟩ := hl
  rw [List.mem_filter] at hc
  exact candidatePairs_ne strategies records c hc.1

/-- C3: no self-loops — no strategy emits a candidate pair of a record with
itself; every discovery run preserves the invariant that stored links have
distinct endpoints; and the manual link form rejects a submission whose
source and target coincide. -/
theorem no_self_loops :
    (∀ (s : Strategy) (records : List Paper) (p : Nat × Nat),
        p ∈ strategyPairs s records → p.1 ≠ p.2) ∧
    (∀ (records : List Paper) (links : List Link)
       (strategies : List Strategy) (deleteExisting : Bool)
       (failAt : Nat → Bool) (links2 : List Link)
       (out : Except String (Nat × Nat)),
        (∀ l ∈ links, l.source ≠ l.target) →
        discoverLinksTx records links strategies deleteExisting failAt =
          (links2, out) →
        ∀ l ∈ links2, l.source ≠ l.target) ∧
    (∀ sourceId targetId, buildLinkValidate sourceId targetId = none →
        sourceId ≠ targetId) := by
  refine ⟨strategyPairs_ne, ?_, ?_⟩
  · intro records links strategies deleteExisting failAt links2 out hinv heq
    unfold discoverLinksTx at heq
    by_cases hne : strategies.isEmpty = true
    · rw [if_pos hne] at heq
      rw [Prod.mk.injEq] at heq
      rw [← heq.1]
      exact hinv
    · rw [if_neg hne] at heq
      cases hcb : commitBatch links
          (discoverOps records links strategies deleteExisting).1 failAt with
      | error e =>
        rw [hcb] at heq
        simp only [Prod.mk.injEq] at heq
        rw [← heq.1]
        exact hinv
      | ok lk =>
        rw [hcb] at heq
        simp only [Prod.mk.injEq] at heq
        rw [← heq.1]
        have h2 := commitGo_ok failAt _ 0 links lk hcb
        rw [discoverOps_foldl] at h2
        subst h2
        intro l hl
        rw [List.mem_append] at hl
        cases hl with
        | inl hbase =>
          cases deleteExisting with
          | false => exact hinv l (by simpa using hbase)
          | true => simp at hbase
        | inr hnew => exact newLinksFor_ne _ _ _ l hnew
  · intro sourceId targetId hv
    unfold buildLinkValidate at hv
    by_cases h1 : sourceId = "" ∨ targetId = ""
    · rw [if_pos h1] at hv
      exact absurd hv (by simp)
    · rw [if_neg h1] at hv
      by_cases h2 : sourceId = targetId
      · rw [if_pos h2] at hv
        exact absurd hv (by simp)
      · exact h2

/-- Concrete instances of the no-self-loop guarantees: the tag strategy on a
two-record set emits no self-pair, a discovery run from an empty store yields
only links with distinct endpoints, and the manual form accepts only distinct
endpoint ids. -/
theorem no_self_loops_witness :
    ((1, 1) ∉ strategyPairs Strategy.tags demoRecords) ∧
    (∀ l ∈ (discoverLinksTx demoRecords [] [Strategy.tags] false noFail).1,
        l.source ≠ l.target) ∧
    ("1" : String) ≠ "2" := by
  refine ⟨?_, ?_, ?_⟩
  · intro hmem
    exact no_self_loops.1 Strategy.tags demoRecords (1, 1) hmem rfl
  · exact no_self_loops.2.1 demoRecords [] [Strategy.tags] false noFail
      (discoverLinksTx demoRecords [] [Strategy.tags] false noFail).1
      (discoverLinksTx demoRecords [] [Strategy.tags] false noFail).2
      (by simp) rfl
  · exact no_self_loops.2.2 "1" "2" (by decide)

/-- Demo record sharing a tag, a keyword and an author with demoE. -/
def demoD : Paper :=
  { id := 4, title := "D", authors := some "Doe, John",
    tags := some "nlp", keywords := some "graphs", year := some 2020 }

/-- Demo record sharing a tag, a keyword and an author with demoD. -/
def demoE : Paper :=
  { id := 5, title := "E", authors := some "Doe, John and Roe, Jane",
    tags := some "nlp, cv", keywords := some "graphs, trees",
    year := some 2021 }

/-- C1: for a stored type of exactly related, the resolved display label
follows the fixed priority tags, then keywords, then authors: a shared tag
yields related-tag (even when a keyword is also shared), keywords are
consulted only when no tag is shared, authors only when neither tags nor
keywords are shared. -/
theorem resolve_label_priority :
    (∀ a b : Paper, overlaps a.tagSet b.tagSet = true →
        resolveLabel a b "related" = "related-tag") ∧
    (∀ a b : Paper, overlaps a.tagSet b.tagSet = false →
        overlaps a.keywordSet b.keywordSet = true →
        resolveLabel a b "related" = "related-keyword") ∧
    (∀ a b : Paper, overlaps a.tagSet b.tagSet = false →
        overlaps a.keywordSet b.keywordSet = false →
        overlaps a.authorSet b.authorSet = true →
        resolveLabel a b "related" = "related-author") := by
  refine ⟨?_, ?_, ?_⟩
  · intro a b ht
    simp [resolveLabel, ht]
  · intro a b ht hk
    simp [resolveLabel, ht, hk]
  · intro a b ht hk ha
    simp [resolveLabel, ht, hk, ha]

/-- Concrete instance of label priority: demoD and demoE share both the tag
nlp and the keyword graphs, and the resolved label is related-tag. -/
theorem resolve_label_priority_witness :
    overlaps demoD.tagSet demoE.tagSet = true ∧
    overlaps demoD.keywordSet demoE.keywordSet = true ∧
    resolveLabel demoD demoE "related" = "related-tag" :=
  ⟨by decide, by decide, resolve_label_priority.1 demoD demoE (by decide)⟩

/-- C4: a stored link type other than related resolves to itself verbatim,
whatever the attribute overlap; and a related link between records sharing
no tag, keyword or author also resolves to the stored type verbatim. -/
theorem resolve_label_passthrough :
    (∀ (a b : Paper) (t : String), t ≠ "related" → resolveLabel a b t = t) ∧
    (∀ a b : Paper, overlaps a.tagSet b.tagSet = false →
        overlaps a.keywordSet b.keywordSet = false →
        overlaps a.authorSet b.authorSet = false →
        resolveLabel a b "related" = "related") := by
  constructor
  · intro a b t ht
    simp [resolveLabel, ht]
  · intro a b h1 h2 h3
    simp [resolveLabel, h1, h2, h3]

/-- Concrete instances of passthrough: a cites link between heavily
overlapping records keeps the label cites, and a related link between
records sharing nothing keeps the label related. -/
theorem resolve_label_passthrough_witness :
    resolveLabel demoD demoE "cites" = "cites" ∧
    resolveLabel demoA demoC "related" = "related" :=
  ⟨resolve_label_passthrough.1 demoD demoE "cites" (by decide),
   resolve_label_passthrough.2 demoA demoC (by decide) (by decide)
     (by decide)⟩

/-- C7: the Attribute Normalizer maps null and the empty string to the empty
set; every kept token is non-empty (whitespace-only tokens are dropped) and
trimmed; and the authors field is split on the literal BibTeX separator when
it occurs, falling back to comma-splitting otherwise. -/
theorem attribute_normalizer_spec :
    (normalizeAttr none = [] ∧ normalizeAttr (some "") = [] ∧
     normalizeAuthors none = [] ∧ normalizeAuthors (some "") = []) ∧
    (∀ (s : Option String) (t : List Char), t ∈ normalizeAttr s →
        t ≠ [] ∧ trimL t = t) ∧
    (∀ (s : Option String) (t : List Char), t ∈ normalizeAuthors s →
        t ≠ [] ∧ trimL t = t) ∧
    (∀ s : String, hasAnd s.data = true →
        normalizeAuthors (some s) = cleanTokens (splitAnd s.data)) ∧
    (∀ s : String, hasAnd s.data = false →
        normalizeAuthors (some s) = cleanTokens (splitComma s.data)) := by
  refine ⟨⟨rfl, by decide, rfl, by decide⟩, ?_, ?_, ?_, ?_⟩
  · intro s t ht
    cases s with
    | none => simp [normalizeAttr] at ht
    | some s => exact mem_cleanTokens _ t ht
  · intro s t ht
    cases s with
    | none => simp [normalizeAuthors] at ht
    | some s => exact mem_cleanTokens _ t ht
  · intro s hs
    simp [normalizeAuthors, hs]
  · intro s hs
    simp [normalizeAuthors, hs]

/-- Concrete instances of the normalizer contract: kept tokens of a messy
tags string and of a BibTeX authors string are non-empty and trimmed, an
authors string containing the BibTeX separator is and-split, and one
without it is comma-split. -/
theorem attribute_normalizer_spec_witness :
    ("nlp".data ≠ [] ∧ trimL "nlp".data = "nlp".data) ∧
    ("Doe, John".data ≠ [] ∧ trimL "Doe, John".data = "Doe, John".data) ∧
    normalizeAuthors (some "Doe, John and Roe, Jane") =
      cleanTokens (splitAnd "Doe, John and Roe, Jane".data) ∧
    normalizeAuthors (some "Ada Lovelace, Alan Turing") =
      cleanTokens (splitComma "Ada Lovelace, Alan Turing".data) :=
  ⟨attribute_normalizer_spec.2.1 (some "  nlp , ,  vision") "nlp".data
     (by decide),
   attribute_normalizer_spec.2.2.1 (some "Doe, John and Roe, Jane")
     "Doe, John".data (by decide),
   attribute_normalizer_spec.2.2.2.1 "Doe, John and Roe, Jane" (by decide),
   attribute_normalizer_spec.2.2.2.2 "Ada Lovelace, Alan Turing"
     (by decide)⟩

/-- Modelled from the spec: escaping of attribute text embedded in a DOT
quoted string — double quotes and newlines are escaped so the DOT text
parses. -/
def escapeDot : List Char → List Char
  | [] => []
  | c :: rest =>
    if c = '"' then '\\' :: '"' :: escapeDot rest
    else if c = '\n' then '\\' :: 'n' :: escapeDot rest
    else c :: escapeDot rest

/-- Scanner for the content of a Graphviz double-quoted string: it is
well-formed when every double quote in it is immediately preceded by a
backslash (an unescaped quote would terminate the string early). -/
def wellEscapedDot : List Char → Bool
  | [] => true
  | [c] => if c = '"' then false else true
  | c :: d :: rest =>
    if c = '"' then false
    else if c = '\\' ∧ d = '"' then wellEscapedDot rest
    else wellEscapedDot (d :: rest)

/-- Modelled from the spec: the composite node display label (title, id,
authors, keywords — the exact composition is a presentation choice). -/
def nodeLabel (p : Paper) : String :=
  p.title ++ " (" ++ toString p.id ++ ") — " ++ p.authors.getD "" ++
    " — " ++ p.keywords.getD ""

/-- Modelled from the spec: one DOT node statement with escaped label. -/
def dotNode (p : Paper) : String :=
  "\"" ++ toString p.id ++ "\" [label=\"" ++
    String.mk (escapeDot (nodeLabel p).data) ++ "\"];\n"

/-- Record lookup by id. -/
def findPaper (papers : List Paper) (i : Nat) : Option Paper :=
  papers.find? (fun p => p.id == i)

/-- Resolved display label of a link: the Edge Label Resolver applied to its
endpoint records; a dangling endpoint keeps the stored type. -/
def linkLabel (papers : List Paper) (l : Link) : String :=
  match findPaper papers l.source, findPaper papers l.target with
  | some a, some b => resolveLabel a b l.type
  | _, _ => l.type

/-- Modelled from the spec: one DOT edge statement. -/
def dotEdge (papers : List Paper) (l : Link) : String :=
  "\"" ++ toString l.source ++ "\" -> \"" ++ toString l.target ++
    "\" [label=\"" ++ String.mk (escapeDot (linkLabel papers l).data) ++
    "\"];\n"

/-- Modelled from the spec: the Graphviz DOT rendering of the graph — a
directed graph with one statement per node and per edge. -/
def exportDot (papers : List Paper) (links : List Link) : String :=
  "digraph papers \x7b\n" ++ String.join (papers.map dotNode) ++
    String.join (links.map (dotEdge papers)) ++ "\x7d\n"

theorem escapeDot_cons_quote (rest : List Char) :
    escapeDot ('"' :: rest) = '\\' :: '"' :: escapeDot rest := by
  simp [escapeDot]

theorem escapeDot_cons_nl (rest : List Char) :
    escapeDot ('\n' :: rest) = '\\' :: 'n' :: escapeDot rest := by
  simp [escapeDot]

theorem escapeDot_cons_other (c : Char) (rest : List Char)
    (hc : c ≠ '"') (hn : c ≠ '\n') :
    escapeDot (c :: rest) = c :: escapeDot rest := by
  simp [escapeDot, hc, hn]

theorem escapeDot_head_ne_quote :
    ∀ (s : List Char) (d : Char) (t : List Char),
      escapeDot s = d :: t → d ≠ '"' := by
  intro s d t h
  cases s with
  | nil => simp [escapeDot] at h
  | cons c rest =>
    by_cases hc : c = '"'
    · rw [hc] at h
      simp [escapeDot] at h
      rw [← h.1]
      decide
    · by_cases hn : c = '\n'
      · rw [hn] at h
        simp [escapeDot] at h
        rw [← h.1]
        decide
      · simp [escapeDot, hc, hn] at h
        rw [← h.1]
        exact hc

theorem escapeDot_wellEscaped (s : List Char) :
    wellEscapedDot (escapeDot s) = true := by
  induction s with
  | nil => rfl
  | cons c rest ih =>
    by_cases hc : c = '"'
    · rw [hc, escapeDot_cons_quote]
      simpa [wellEscapedDot] using ih
    · by_cases hn : c = '\n'
      · rw [hn, escapeDot_cons_nl]
        have h1 : wellEscapedDot ('n' :: escapeDot rest) = true := by
          cases he : escapeDot rest with
          | nil => rfl
          | cons d t =>
            have hd := escapeDot_head_ne_quote rest d t he
            simpa [wellEscapedDot, hd] using (he ▸ ih)
        simpa [wellEscapedDot] using h1
      · rw [escapeDot_cons_other c rest hc hn]
        cases he : escapeDot rest with
        | nil => simp [wellEscapedDot, hc]
        | cons d t =>
          have hd := escapeDot_head_ne_quote rest d t he
          have hcond : ¬ (c = '\\' ∧ d = '"') := by
            intro hcd
            exact hd hcd.2
          simpa [wellEscapedDot, hc, hcond] using (he ▸ ih)

theorem infix_cons_char {l m : List Char} {a : Char} (h : l <:+: m) :
    l <:+: a :: m := by
  obtain ⟨t, u, rfl⟩ := h
  exact ⟨a :: t, u, rfl⟩

theorem escapeDot_contains_escaped (s : List Char) (hq : '"' ∈ s) :
    ['\\', '"'] <:+: escapeDot s := by
  induction s with
  | nil => simp at hq
  | cons c rest ih =>
    by_cases hc : c = '"'
    · rw [hc, escapeDot_cons_quote]
      exact ⟨[], escapeDot rest, rfl⟩
    · have hq2 : '"' ∈ rest := by
        rcases List.mem_cons.mp hq with h1 | h2
        · exact absurd h1.symm hc
        · exact h2
      by_cases hn : c = '\n'
      · rw [hn, escapeDot_cons_nl]
        exact infix_cons_char (infix_cons_char (ih hq2))
      · rw [escapeDot_cons_other c rest hc hn]
        exact infix_cons_char (ih hq2)

theorem strData_mk (l : List Char) : (String.mk l).data = l := rfl

theorem strData_append (a b : String) :
    (a ++ b).data = a.data ++ b.data := rfl

theorem join_data_acc :
    ∀ (l : List String) (acc : String),
      (l.foldl (· ++ ·) acc).data =
        acc.data ++ (l.map String.data).flatten := by
  intro l
  induction l with
  | nil => intro acc; simp
  | cons s rest ih =>
    intro acc
    simp only [List.foldl_cons, List.map_cons, List.flatten_cons]
    rw [ih (acc ++ s), strData_append, List.append_assoc]

theorem join_data (l : List String) :
    (String.join l).data = (l.map String.data).flatten := by
  show (l.foldl (· ++ ·) "").data = (l.map String.data).flatten
  rw [join_data_acc]
  rfl

theorem dot_export_title_quote (papers : List Paper) (links : List Link)
    (p : Paper) (hp : p ∈ papers) (hq : '"' ∈ p.title.data) :
    ['\\', '"'] <:+: (exportDot papers links).data := by
  have h1 : '"' ∈ (nodeLabel p).data := by
    unfold nodeLabel
    simp only [strData_append, List.append_assoc]
    exact List.mem_append_left _ hq
  have h2 : ['\\', '"'] <:+: escapeDot (nodeLabel p).data :=
    escapeDot_contains_escaped _ h1
  have hmid : escapeDot (nodeLabel p).data <:+: (dotNode p).data := by
    refine ⟨(("\"" : String) ++ toString p.id ++ "\" [label=\"").data,
           ("\"];\n" : String).data, ?_⟩
    show _ = (dotNode p).data
    unfold dotNode
    simp [strData_append, strData_mk]
  have h3 : ['\\', '"'] <:+: (dotNode p).data := h2.trans hmid
  have h4 : (dotNode p).data <:+:
      (String.join (papers.map dotNode)).data := by
    rw [join_data]
    exact List.infix_of_mem_flatten
      (List.mem_map_of_mem _ (List.mem_map_of_mem _ hp))
  have h5 : (String.join (papers.map dotNode)).data <:+:
      (exportDot papers links).data := by
    refine ⟨("digraph papers \x7b\n" : String).data,
           (String.join (links.map (dotEdge papers))).data ++
             ("\x7d\n" : String).data, ?_⟩
    show _ = (exportDot papers links).data
    unfold exportDot
    simp [strData_append]
  exact (h3.trans h4).trans h5

/-- C8: the DOT export renders every node with its label text escaped and
every edge as a quoted source-target statement carrying the resolved label;
escaped text never contains an unescaped quote (the quoted strings stay
well-formed), and a title containing a double quote reaches the emitted DOT
text with that quote escaped. -/
theorem dot_export_spec :
    (∀ p : Paper, dotNode p =
        "\"" ++ toString p.id ++ "\" [label=\"" ++
          String.mk (escapeDot (nodeLabel p).data) ++ "\"];\n") ∧
    (∀ (papers : List Paper) (l : Link), dotEdge papers l =
        "\"" ++ toString l.source ++ "\" -> \"" ++ toString l.target ++
          "\" [label=\"" ++
          String.mk (escapeDot (linkLabel papers l).data) ++ "\"];\n") ∧
    (∀ s : List Char, wellEscapedDot (escapeDot s) = true) ∧
    (∀ (papers : List Paper) (links : List Link) (p : Paper),
        p ∈ papers → '"' ∈ p.title.data →
        ['\\', '"'] <:+: (exportDot papers links).data) :=
  ⟨fun _ => rfl, fun _ _ => rfl, escapeDot_wellEscaped,
   dot_export_title_quote⟩

/-- Demo record whose title contains a double quote. -/
def demoQ : Paper :=
  { id := 9, title := "The \"Attention\" paper", authors := none,
    tags := none, keywords := none, year := none }

/-- Concrete instance of DOT escaping: exporting a record whose title
contains a double quote yields DOT text containing the escaped quote. -/
theorem dot_export_spec_witness :
    ['\\', '"'] <:+: (exportDot [demoQ] []).data :=
  dot_export_spec.2.2.2 [demoQ] [] demoQ (by simp) (by decide)

/-- A JSON field of the fetched graph payload as seen by the hook: missing,
present but not an array, or an array of elements. -/
inductive JsField (α : Type) where
  | missing
  | notArray
  | arr (xs : List α)
deriving DecidableEq

/-- The parsed fetch result consumed by loadGraph (useGraphData.ts): the
payload object with its possibly missing or non-array nodes/links fields. -/
structure RawGraphPayload (N L : Type) where
  nodes : JsField N
  links : JsField L
deriving DecidableEq

/-- The hook state: current graph, loading flag, error message. -/
structure GraphState (N L : Type) where
  nodes : List N
  links : List L
  loading : Bool
  error : Option String
deriving DecidableEq

/-- The Array.isArray guard of loadGraph: an array field passes through,
anything else is replaced by the empty array. -/
def asArray {α : Type} : JsField α → List α
  | .arr xs => xs
  | _ => []

/-- From useGraphData.ts loadGraph: on a successful fetch and parse the
graph is replaced (with non-array fields defaulted to empty arrays) and the
error cleared; on a fetch or parse failure only the error is set and the
previous graph state is kept; loading ends either way. -/
def loadGraph {N L : Type} (st : GraphState N L)
    (result : Except String (RawGraphPayload N L)) : GraphState N L :=
  match result with
  | .ok p =>
    { nodes := asArray p.nodes, links := asArray p.links,
      loading := false, error := none }
  | .error e => { st with loading := false, error := some e }

/-- C9: loadGraph always produces list-valued nodes/links — a missing or
non-array field becomes the empty array, an array field is taken as is — and
on a fetch/parse failure the previously loaded graph is unchanged with only
the error state set. -/
theorem load_graph_robust {N L : Type} :
    (∀ (st : GraphState N L) (p : RawGraphPayload N L),
        p.nodes = .missing ∨ p.nodes = .notArray →
        (loadGraph st (.ok p)).nodes = []) ∧
    (∀ (st : GraphState N L) (p : RawGraphPayload N L),
        p.links = .missing ∨ p.links = .notArray →
        (loadGraph st (.ok p)).links = []) ∧
    (∀ (st : GraphState N L) (p : RawGraphPayload N L) (xs : List N),
        p.nodes = .arr xs → (loadGraph st (.ok p)).nodes = xs) ∧
    (∀ (st : GraphState N L) (p : RawGraphPayload N L),
        (loadGraph st (.ok p)).error = none) ∧
    (∀ (st : GraphState N L) (e : String),
        (loadGraph st (.error e)).nodes = st.nodes ∧
        (loadGraph st (.error e)).links = st.links ∧
        (loadGraph st (.error e)).error = some e) := by
  refine ⟨?_, ?_, ?_, ?_, ?_⟩
  · intro st p hp
    rcases hp with h | h <;> simp [loadGraph, asArray, h]
  · intro st p hp
    rcases hp with h | h <;> simp [loadGraph, asArray, h]
  · intro st p xs hp
    simp [loadGraph, asArray, hp]
  · intro st p
    simp [loadGraph]
  · intro st e
    refine ⟨rfl, rfl, rfl⟩

/-- Concrete instances of loadGraph robustness: a payload whose nodes field
is not an array yields an empty node list, and a failed fetch leaves a
previously loaded one-node graph untouched while recording the error. -/
theorem load_graph_robust_witness :
    (loadGraph (N := Nat) (L := Nat)
        { nodes := [7], links := [], loading := false, error := none }
        (.ok { nodes := .notArray, links := .arr [3] })).nodes = [] ∧
    (loadGraph (N := Nat) (L := Nat)
        { nodes := [7], links := [], loading := false, error := none }
        (.error "Failed to load /graph.json")).nodes = [7] :=
  ⟨load_graph_robust.1
     { nodes := [7], links := [], loading := false, error := none }
     { nodes := .notArray, links := .arr [3] } (Or.inr rfl),
   (load_graph_robust.2.2.2.2
     { nodes := [7], links := [], loading := false, error := none }
     "Failed to load /graph.json").1⟩

/-- A row of the projects table. -/
structure ProjectRow where
  id : String
  name : String
deriving DecidableEq

/-- The HTTP outcome of an API handler. -/
structure ApiResponse where
  status : Nat
  success : Bool
deriving DecidableEq

/-- From vite.config.ts serveProjectsApi: unlink one file if it exists; the
store oracle says whether the unlink call throws.  The error branch exposes
the filesystem unchanged at the point of the throw. -/
def unlinkIfExists (fs : List String) (p : String)
    (unlinkFails : String → Bool) : Except String (List String) :=
  if fs.contains p then
    if unlinkFails p then .error "unlink failure"
    else .ok (fs.filter (fun f => f != p))
  else .ok fs

/-- From serveProjectsApi: the try/catch around the graph-file deletions —
the json file is attempted first, then the dot file; a throw at either point
is caught and absorbed, keeping the filesystem state reached so far. -/
def tryDeleteGraphFiles (fs : List String) (jsonPath dotPath : String)
    (unlinkFails : String → Bool) : List String :=
  match unlinkIfExists fs jsonPath unlinkFails with
  | .error _ => fs
  | .ok fs1 =>
    match unlinkIfExists fs1 dotPath unlinkFails with
    | .error _ => fs1
    | .ok fs2 => fs2

/-- From serveProjectsApi: the DELETE handler — a missing id parameter is a
400; otherwise the project rows with that id are deleted, the project's
graph export files are deleted inside an absorbed try/catch, and the
response is 200 with success. -/
def deleteProjectHandler (idParam : Option String) (db : List ProjectRow)
    (fs : List String) (unlinkFails : String → Bool) :
    ApiResponse × List ProjectRow × List String :=
  match idParam with
  | none => ({ status := 400, success := false }, db, fs)
  | some i =>
    ({ status := 200, success := true },
     db.filter (fun r => r.id != i),
     tryDeleteGraphFiles fs (i ++ ".json") (i ++ ".dot") unlinkFails)

theorem contains_false_not_mem {g : List String} {q : String}
    (h : g.contains q = false) : q ∉ g := by
  intro hmem
  have htrue : g.contains q = true := by
    rw [List.contains_iff_exists_mem_beq]
    exact ⟨q, hmem, by simp⟩
  rw [h] at htrue
  exact Bool.false_ne_true htrue

theorem not_mem_self_filtered (g : List String) (q : String) :
    q ∉ g.filter (fun f => f != q) := by
  intro hmem
  rw [List.mem_filter] at hmem
  simp at hmem

theorem tryDelete_noFail (fs : List String) (jsonPath dotPath : String) :
    jsonPath ∉ tryDeleteGraphFiles fs jsonPath dotPath (fun _ => false) ∧
    dotPath ∉ tryDeleteGraphFiles fs jsonPath dotPath (fun _ => false) := by
  unfold tryDeleteGraphFiles unlinkIfExists
  by_cases h1 : fs.contains jsonPath = true
  · simp only [h1, if_true, Bool.false_eq_true, if_false]
    by_cases h2 : (fs.filter (fun f => f != jsonPath)).contains dotPath = true
    · simp only [h2, if_true]
      constructor
      · intro hmem
        rw [List.mem_filter] at hmem
        exact not_mem_self_filtered fs jsonPath hmem.1
      · exact not_mem_self_filtered _ dotPath
    · rw [Bool.not_eq_true] at h2
      simp only [h2, Bool.false_eq_true, if_false]
      exact ⟨not_mem_self_filtered fs jsonPath, contains_false_not_mem h2⟩
  · rw [Bool.not_eq_true] at h1
    simp only [h1, Bool.false_eq_true, if_false]
    by_cases h2 : fs.contains dotPath = true
    · simp only [h2, if_true]
      constructor
      · intro hmem
        rw [List.mem_filter] at hmem
        exact contains_false_not_mem h1 hmem.1
      · exact not_mem_self_filtered fs dotPath
    · rw [Bool.not_eq_true] at h2
      simp only [h2, Bool.false_eq_true, if_false]
      exact ⟨contains_false_not_mem h1, contains_false_not_mem h2⟩

/-- C10: the projects DELETE handler removes every project row with the
requested id and deletes the project's graph export files when they exist;
whatever errors the file deletions raise are absorbed, so the response is
always 200/success. -/
theorem delete_project_handler_spec :
    (∀ (i : String) (db : List ProjectRow) (fs : List String)
       (unlinkFails : String → Bool),
        (deleteProjectHandler (some i) db fs unlinkFails).1 =
          { status := 200, success := true }) ∧
    (∀ (i : String) (db : List ProjectRow) (fs : List String)
       (unlinkFails : String → Bool) (r : ProjectRow),
        r ∈ (deleteProjectHandler (some i) db fs unlinkFails).2.1 →
        r.id ≠ i) ∧
    (∀ (i : String) (db : List ProjectRow) (fs : List String),
        (i ++ ".json") ∉
          (deleteProjectHandler (some i) db fs (fun _ => false)).2.2 ∧
        (i ++ ".dot") ∉
          (deleteProjectHandler (some i) db fs (fun _ => false)).2.2) := by
  refine ⟨fun _ _ _ _ => rfl, ?_, ?_⟩
  · intro i db fs unlinkFails r hr
    have : r ∈ db.filter (fun r => r.id != i) := hr
    rw [List.mem_filter] at this
    simpa using this.2
  · intro i db fs
    exact tryDelete_noFail fs (i ++ ".json") (i ++ ".dot")

/-- Concrete instance of the DELETE handler contract: a failing file
deletion still yields 200/success, the project row is gone, and with a
healthy filesystem both export files are removed. -/
theorem delete_project_handler_spec_witness :
    (deleteProjectHandler (some "demo")
        [{ id := "demo", name := "Demo" }, { id := "other", name := "O" }]
        ["demo.json", "demo.dot"] (fun _ => true)).1 =
      { status := 200, success := true } ∧
    ("other" : String) ≠ "demo" ∧
    ("demo.json" : String) ∉
      (deleteProjectHandler (some "demo")
        [{ id := "demo", name := "Demo" }]
        ["demo.json", "demo.dot"] (fun _ => false)).2.2 :=
  ⟨delete_project_handler_spec.1 "demo"
     [{ id := "demo", name := "Demo" }, { id := "other", name := "O" }]
     ["demo.json", "demo.dot"] (fun _ => true),
   delete_project_handler_spec.2.1 "demo"
     [{ id := "demo", name := "Demo" }, { id := "other", name := "O" }]
     ["demo.json", "demo.dot"] (fun _ => true)
     { id := "other", name := "O" } (by decide),
   (delete_project_handler_spec.2.2 "demo"
     [{ id := "demo", name := "Demo" }] ["demo.json", "demo.dot"]).1⟩

end PaperGraph
